import Mathlib

/-!
Verification of the SlayerLegendCDN index builders.

This file shallowly embeds the two JavaScript index builders of the
repository and proves/refutes the frozen claims about them:

* `scripts/generate-image-index.js` (user-content variant): scans metadata
  sidecar files, builds entries, sorts them newest-first and aggregates a
  `byCategory` map.  Embedded as `generateIndex` below, operating on a list
  of `Sidecar` records that describe what the filesystem held for each
  discovered `<id>-metadata.json` file (which sibling image files exist,
  the parsed metadata, the decode result of the image library).
* `scripts/build-game-asset-index.js` (game-asset variant): walks a
  directory tree, builds one entry per image file and writes a single
  index document.  Embedded as `buildImageIndexes` below, operating on the
  list of discovered files (`GFile`).

Modelling choices (stated once here):
* Strings are Lean `String`s; JavaScript `toLowerCase` is modelled by
  ASCII `Char.toLower` (asset filenames are ASCII).
* JavaScript date parsing (`new Date(s).getTime()`) is modelled by an
  arbitrary total function `pd : String → Int` passed to the builder; the
  comparator `new Date(b) - new Date(a)` is then a consistent descending
  comparator and `Array.prototype.sort` (stable per ES2019) is modelled by
  the stable insertion sort `sortImages`.
* JavaScript string falsiness (`""` is falsy in `x || y`) is modelled by
  `jsOr`; absent JSON fields are `Option.none`.
* A POSIX host is modelled: path separators are `/`; the code's
  `replace(/\\/g, '/')` and the `[/\\]` split retain their literal
  behaviour in the embedding.
* `glob.sync(dir/id.{jpg,jpeg,png,gif,webp})` returns matches sorted
  alphabetically (glob's default), hence the fixed order gif, jpeg, jpg,
  png, webp in `Sidecar.existingExts`.
-/

namespace SlayerCDN

/-! ## Generic string helpers (JS primitives used by both scripts) -/

/-- JS `String.prototype.toLowerCase`, ASCII fragment. -/
def toLowerStr (s : String) : String := String.mk (s.data.map Char.toLower)

/-- Worker for `splitChars`: JS-style split, keeping empty pieces. -/
def splitAux (p : Char → Bool) (cur : List Char) : List Char → List (List Char)
  | [] => [cur.reverse]
  | c :: cs => if p c then cur.reverse :: splitAux p [] cs else splitAux p (c :: cur) cs

/-- JS `String.prototype.split` on a character class (empty pieces kept). -/
def splitChars (p : Char → Bool) (l : List Char) : List (List Char) := splitAux p [] l

/-- String-valued version of `splitChars`. -/
def splitCharsStr (p : Char → Bool) (s : String) : List String :=
  (splitChars p s.data).map String.mk

/-- Worker for `digitRuns`; `cur` holds the current run, reversed. -/
def digitRunsAux (cur : List Char) : List Char → List String
  | [] => if cur.isEmpty then [] else [String.mk cur.reverse]
  | c :: cs =>
      if c.isDigit then digitRunsAux (c :: cur) cs
      else if cur.isEmpty then digitRunsAux [] cs
      else String.mk cur.reverse :: digitRunsAux [] cs

/-- JS `s.match(/\d+/g)`: the maximal runs of decimal digits, in order. -/
def digitRuns (s : String) : List String := digitRunsAux [] s.data

/-- JS `filename.replace(/\.[^/.]+$/, '')`: strip a final dot-extension
whose body is nonempty and free of `/` and `.`. -/
def stripExt (s : String) : String :=
  let rev := s.data.reverse
  let ext := rev.takeWhile (fun c => c ≠ '.' && c ≠ '/')
  match rev.dropWhile (fun c => c ≠ '.' && c ≠ '/') with
  | '.' :: more => if ext.isEmpty then s else String.mk more.reverse
  | _ => s

/-- JS `s.replace(/\\/g, '/')`. -/
def normSlash (s : String) : String :=
  String.mk (s.data.map (fun c => if c = '\\' then '/' else c))

/-- One step of JS `Set.prototype.add` on the insertion-ordered list view. -/
def jsSetAdd (acc : List String) (s : String) : List String :=
  if s ∈ acc then acc else acc ++ [s]

/-- `Array.from(new Set(l))`: deduplicate keeping first occurrences. -/
def dedup (l : List String) : List String := l.foldl jsSetAdd []

/-- JS `v || d` for a possibly-absent string field (`""` is falsy). -/
def jsOr (v : Option String) (d : String) : String :=
  match v with
  | some s => if s = "" then d else s
  | none => d

/-- Truthiness of a possibly-absent string field. -/
def truthyStr : Option String → Bool
  | some v => v ≠ ""
  | none => false

/-! ## User-content builder (`scripts/generate-image-index.js`) data model -/

/-- Parsed contents of one `<id>-metadata.json` sidecar.  Absent JSON
fields are `none`. -/
structure Metadata where
  filename : Option String
  name : Option String
  description : Option String
  category : Option String
  tags : Option (List String)
  dimensions : Option (Nat × Nat)
  uploadedBy : Option String
  uploadDate : Option String
  uploadedAt : Option String
  format : Option String
deriving DecidableEq

/-- Everything the script observes about one discovered sidecar: the
directory it lives in, the parsed metadata (with `parseOk = false`
modelling a `JSON.parse`/read failure caught by the per-file `try`),
which sibling image files `glob` finds, the size of the primary file, and
what the image library reports when asked for dimensions
(`none` = decode failure). -/
structure Sidecar where
  id : String
  dir : String
  meta : Metadata
  hasJpg : Bool
  hasJpeg : Bool
  hasPng : Bool
  hasGif : Bool
  hasWebp : Bool
  decode : Option (Nat × Nat)
  fileSize : Nat
  parseOk : Bool
deriving DecidableEq

/-- The extensions `glob.sync(dir/id.ext)` finds, in glob's sorted order. -/
def Sidecar.existingExts (s : Sidecar) : List String :=
  (if s.hasGif then ["gif"] else []) ++ (if s.hasJpeg then ["jpeg"] else [])
    ++ (if s.hasJpg then ["jpg"] else []) ++ (if s.hasPng then ["png"] else [])
    ++ (if s.hasWebp then ["webp"] else [])

/-- `originalFiles.find(f => !f.endsWith('.webp')) || originalFiles[0]`,
tracked by extension (paths are `dir/id.ext`, so ending in `.webp` is
equivalent to the extension being `webp`). -/
def Sidecar.originalExt (s : Sidecar) : Option String :=
  match s.existingExts.find? (fun e => e ≠ "webp") with
  | some e => some e
  | none => s.existingExts.head?

/-- The dimension pair produced by the lazy extraction branch: decode
whichever file is available (`originalFile || webpFile`; the webp path
string is always truthy but only exists when `hasWebp`), zeroing on
failure or absence. -/
def extractedDims (s : Sidecar) : Nat × Nat :=
  if s.originalExt.isSome || s.hasWebp then
    match s.decode with
    | some d => d
    | none => (0, 0)
  else (0, 0)

/-- Final dimensions of an entry: the sidecar value unless it is absent or
has a zero (falsy) component, in which case the lazy extraction runs. -/
def dimsOf (s : Sidecar) : Nat × Nat :=
  match s.meta.dimensions with
  | some d => if d.1 = 0 ∨ d.2 = 0 then extractedDims s else d
  | none => extractedDims s

/-- One entry of the user-content index document. -/
structure Entry where
  id : String
  filename : String
  name : String
  description : String
  path : Option String
  webpPath : Option String
  category : String
  tags : List String
  dimensions : Nat × Nat
  filesize : Nat
  uploadedBy : String
  uploadDate : String
  format : String
deriving DecidableEq

/-- The per-sidecar entry construction (loop body of `generateIndex` in
`generate-image-index.js`); `now` is `new Date().toISOString()`. -/
def entryOf (now : String) (s : Sidecar) : Entry :=
  { id := s.id
    filename := jsOr s.meta.filename s.id
    name := jsOr s.meta.name (jsOr s.meta.filename s.id)
    description := jsOr s.meta.description ""
    path := s.originalExt.map (fun e => normSlash (s.dir ++ "/" ++ s.id ++ "." ++ e))
    webpPath := if s.hasWebp then some (normSlash (s.dir ++ "/" ++ s.id ++ ".webp")) else none
    category := jsOr s.meta.category "other"
    tags := s.meta.tags.getD []
    dimensions := dimsOf s
    filesize := if s.originalExt.isSome then s.fileSize else 0
    uploadedBy := jsOr s.meta.uploadedBy "unknown"
    uploadDate := jsOr s.meta.uploadDate (jsOr s.meta.uploadedAt now)
    format := jsOr s.meta.format (match s.originalExt with | some e => e | none => "unknown") }

/-! ## The sort (`images.sort((a, b) => new Date(b.uploadDate) - new Date(a.uploadDate))`)

`Array.prototype.sort` with a consistent comparator is the unique stable
sort for that comparator (ES2019 requires stability); it is modelled by a
stable insertion sort on the parsed timestamps `pd`. -/

/-- Stable descending insertion: `x` (earlier in input) goes before the
first element it does not strictly lose to. -/
def insertByDate (pd : String → Int) (x : Entry) : List Entry → List Entry
  | [] => [x]
  | y :: ys =>
      if pd y.uploadDate ≤ pd x.uploadDate then x :: y :: ys
      else y :: insertByDate pd x ys

/-- Stable sort of the entry list, newest (largest timestamp) first. -/
def sortImages (pd : String → Int) : List Entry → List Entry
  | [] => []
  | x :: xs => insertByDate pd x (sortImages pd xs)

/-! ## byCategory (`images.reduce(...)` building an insertion-ordered object) -/

/-- One reduce step: push `i` onto the bucket of `c`, creating the bucket
(at the end, JS object key insertion order) on first occurrence. -/
def insertCat (acc : List (String × List String)) (c i : String) :
    List (String × List String) :=
  if acc.any (fun p => p.1 == c) then
    acc.map (fun p => if p.1 == c then (p.1, p.2 ++ [i]) else p)
  else acc ++ [(c, [i])]

/-- The `byCategory` object, as an insertion-ordered association list. -/
def byCategoryOf (images : List Entry) : List (String × List String) :=
  images.foldl (fun acc img => insertCat acc img.category img.id) []

/-- Object lookup `byCategory[c]`, defaulting to the empty bucket. -/
def bucketOf (m : List (String × List String)) (c : String) : List String :=
  match m.find? (fun p => p.1 == c) with
  | some p => p.2
  | none => []

/-- The user-content index document. -/
structure UserIndex where
  version : String
  totalImages : Nat
  generatedDate : String
  images : List Entry
  byCategory : List (String × List String)
deriving DecidableEq

/-- The whole user-content builder: empty-input early branch writing the
empty document, otherwise build entries from the sidecars that parsed,
sort them newest-first, and aggregate `byCategory`. -/
def generateIndex (pd : String → Int) (now : String) (scs : List Sidecar) : UserIndex :=
  if scs.isEmpty then
    ⟨"1.0", 0, now, [], []⟩
  else
    let images := sortImages pd ((scs.filter (fun s => s.parseOk)).map (entryOf now))
    ⟨"1.0", images.length, now, images, byCategoryOf images⟩

/-! ## Game-asset builder (`scripts/build-game-asset-index.js`) -/

/-- Everything the script observes about one discovered image file: its
path relative to the scan root (POSIX, `/`-separated), the `fs.stat`
size and mtime, the result of `getImageDimensions` (`none` for svg or
decode failure), and `ok = false` modelling a per-file error caught by
the loop's `try` (the file is then skipped). -/
structure GFile where
  relPath : String
  size : Nat
  mtime : String
  dims : Option (Nat × Nat)
  ok : Bool
deriving DecidableEq

/-- `relativeToCdn.split(/[/\\])[0] || 'uncategorized'` from the loop body
of `buildImageIndexes`. -/
def categoryOfRel (relPath : String) : String :=
  let first := (splitChars (fun c => c == '/' || c == '\\') relPath.data).headD []
  if first.isEmpty then "uncategorized" else String.mk first

/-- `path.basename(fullPath)` on a POSIX host: the last `/`-segment. -/
def basenameOf (relPath : String) : String :=
  (splitCharsStr (fun c => c == '/') relPath).getLastD relPath

/-- Path segments of the entry path that survive the keyword filter
(everything but empty pieces, `images`, `content` and the filename). -/
def pathSegs (filename imagePath : String) : List String :=
  ((splitCharsStr (fun c => c == '/') imagePath).filter (fun p => p ≠ ""))
    |>.filter (fun p => decide (p ≠ "images" ∧ p ≠ "content" ∧ p ≠ filename))

/-- Underscore/dash tokens of the lowercased name that are longer than one
character (`lowerName.split(/[_-]/)` then the length filter). -/
def longTokens (lowerName : String) : List String :=
  (splitCharsStr (fun c => c == '_' || c == '-') lowerName).filter (fun w => w.length > 1)

/-- `generateKeywords(filename, category, imagePath)` from
`build-game-asset-index.js`: a JS `Set` receives, in order, the filename
without extension, the category, the surviving path segments, the digit
runs of the lowercased name and its long underscore/dash tokens;
`Array.from` returns the insertion-ordered deduplicated list. -/
def generateKeywords (filename category imagePath : String) : List String :=
  dedup ([stripExt filename, category]
    ++ pathSegs filename imagePath
    ++ digitRuns (toLowerStr (stripExt filename))
    ++ longTokens (toLowerStr (stripExt filename)))

/-- Modelled from the spec: the keyword set exactly as the claim words it
(numeric substrings and underscore/dash tokens taken from the lowercased
full *filename* rather than from the filename without extension).  Used
only to compare the claim against `generateKeywords`. -/
def keywordsClaimed (filename category imagePath : String) : List String :=
  dedup ([stripExt filename, category]
    ++ pathSegs filename imagePath
    ++ digitRuns (toLowerStr filename)
    ++ longTokens (toLowerStr filename))

/-- One entry of the game-asset index document; `dimensions` is absent for
vector formats and decode failures. -/
structure GEntry where
  path : String
  filename : String
  category : String
  filesize : Nat
  keywords : List String
  lastModified : String
  dimensions : Option (Nat × Nat)
deriving DecidableEq

/-- Loop body of `buildImageIndexes`: build the entry for one file. -/
def mkGameEntry (f : GFile) : GEntry :=
  let imagePath := "/" ++ normSlash f.relPath
  let filename := basenameOf f.relPath
  let category := categoryOfRel f.relPath
  { path := imagePath
    filename := filename
    category := category
    filesize := f.size
    keywords := generateKeywords filename category imagePath
    lastModified := f.mtime
    dimensions := f.dims }

/-- The game-asset index document (`imageIndex` object in the script). -/
structure GameIndex where
  version : String
  path : String
  totalImages : Nat
  generatedAt : String
  images : List GEntry
deriving DecidableEq

/-- Result of one run of the game-asset builder against an existing scan
root: either the explicit zero-images early `process.exit(0)` with
nothing written, or the written index document. -/
inductive GameResult where
  | exitOk : GameResult
  | written : GameIndex → GameResult
deriving DecidableEq

/-- The assembled document for a nonempty scan: entries for the files that
processed without error, in traversal order. -/
def gameIndexOf (now : String) (files : List GFile) : GameIndex :=
  let images := (files.filter (fun f => f.ok)).map mkGameEntry
  ⟨"1.0", "/images", images.length, now, images⟩

/-- The whole game-asset builder (scan root assumed to exist; the missing
root aborts with exit code 1 before this logic runs). -/
def buildImageIndexes (now : String) (files : List GFile) : GameResult :=
  if files.isEmpty then GameResult.exitOk
  else GameResult.written (gameIndexOf now files)

/-- Names of the index files a run writes: the script writes exactly
`image-index.json` (to `OUTPUT_DIR`) when it writes at all. -/
def writtenFiles : GameResult → List String
  | GameResult.exitOk => []
  | GameResult.written _ => ["image-index.json"]

/-- Truthiness of the sidecar's upload date pair: whether
`metadata.uploadDate || metadata.uploadedAt` is truthy. -/
def hasUploadDate (m : Metadata) : Bool :=
  truthyStr m.uploadDate || truthyStr m.uploadedAt

/-- Whether the entry-building code re-extracts dimensions (the sidecar
value is absent or has a falsy component). -/
def needsExtract (m : Metadata) : Bool :=
  match m.dimensions with
  | none => true
  | some d => d.1 == 0 || d.2 == 0

/-! ## Helper lemmas: deduplication -/

lemma mem_foldl_jsSetAdd (s : String) (l : List String) :
    ∀ acc, s ∈ l.foldl jsSetAdd acc ↔ s ∈ acc ∨ s ∈ l := by
  induction l with
  | nil => intro acc; simp
  | cons x xs ih =>
      intro acc
      rw [List.foldl_cons, ih]
      unfold jsSetAdd
      by_cases hx : x ∈ acc
      · rw [if_pos hx]
        simp only [List.mem_cons]
        constructor
        · rintro (h | h)
          · exact Or.inl h
          · exact Or.inr (Or.inr h)
        · rintro (h | h | h)
          · exact Or.inl h
          · exact Or.inl (h ▸ hx)
          · exact Or.inr h
      · rw [if_neg hx]
        simp only [List.mem_append, List.mem_cons, List.mem_singleton]
        tauto

lemma mem_dedup (s : String) (l : List String) : s ∈ dedup l ↔ s ∈ l := by
  rw [dedup, mem_foldl_jsSetAdd]
  simp

/-! ## Helper lemmas: the stable descending sort -/

/-- The order the user-content sort establishes: non-strictly descending
parsed upload timestamps. -/
def DateGE (pd : String → Int) (a b : Entry) : Prop :=
  pd b.uploadDate ≤ pd a.uploadDate

lemma mem_insertByDate (pd : String → Int) (x a : Entry) :
    ∀ l, a ∈ insertByDate pd x l ↔ a = x ∨ a ∈ l := by
  intro l
  induction l with
  | nil => simp [insertByDate]
  | cons y ys ih =>
      unfold insertByDate
      split
      · simp [List.mem_cons]
      · simp only [List.mem_cons, ih]
        tauto

lemma perm_insertByDate (pd : String → Int) (x : Entry) :
    ∀ l, List.Perm (insertByDate pd x l) (x :: l) := by
  intro l
  induction l with
  | nil => exact List.Perm.refl _
  | cons y ys ih =>
      unfold insertByDate
      split
      · exact List.Perm.refl _
      · exact (ih.cons y).trans (List.Perm.swap x y ys)

lemma perm_sortImages (pd : String → Int) : ∀ l, List.Perm (sortImages pd l) l := by
  intro l
  induction l with
  | nil => exact List.Perm.refl _
  | cons x xs ih =>
      exact (perm_insertByDate pd x (sortImages pd xs)).trans (ih.cons x)

lemma mem_sortImages (pd : String → Int) (l : List Entry) (a : Entry) :
    a ∈ sortImages pd l ↔ a ∈ l :=
  (perm_sortImages pd l).mem_iff

lemma pairwise_insertByDate (pd : String → Int) (x : Entry) :
    ∀ l, l.Pairwise (DateGE pd) → (insertByDate pd x l).Pairwise (DateGE pd) := by
  intro l
  induction l with
  | nil => intro _; simp [insertByDate, DateGE]
  | cons y ys ih =>
      intro h
      rcases List.pairwise_cons.mp h with ⟨hy, hys⟩
      unfold insertByDate
      split
      next hle =>
        refine List.pairwise_cons.mpr ⟨?_, h⟩
        intro z hz
        rcases List.mem_cons.mp hz with rfl | hz
        · exact hle
        · exact le_trans (hy z hz) hle
      next hgt =>
        refine List.pairwise_cons.mpr ⟨?_, ih hys⟩
        intro z hz
        rcases (mem_insertByDate pd x z ys).mp hz with rfl | hz
        · exact le_of_not_le hgt
        · exact hy z hz

lemma pairwise_sortImages (pd : String → Int) :
    ∀ l, (sortImages pd l).Pairwise (DateGE pd) := by
  intro l
  induction l with
  | nil => simp [sortImages]
  | cons x xs ih => exact pairwise_insertByDate pd x (sortImages pd xs) ih

lemma filter_insertByDate (pd : String → Int) (t : Int) (x : Entry) :
    ∀ l, (insertByDate pd x l).filter (fun e => decide (pd e.uploadDate = t))
      = if pd x.uploadDate = t
          then x :: l.filter (fun e => decide (pd e.uploadDate = t))
          else l.filter (fun e => decide (pd e.uploadDate = t)) := by
  intro l
  induction l with
  | nil =>
      by_cases hx : pd x.uploadDate = t
      · simp [insertByDate, hx]
      · simp [insertByDate, hx]
  | cons y ys ih =>
      unfold insertByDate
      split
      next hle =>
        by_cases hx : pd x.uploadDate = t
        · simp [List.filter_cons, hx]
        · simp [List.filter_cons, hx]
      next hgt =>
        have hxy : pd x.uploadDate < pd y.uploadDate := lt_of_not_le hgt
        by_cases hx : pd x.uploadDate = t
        · have hy : ¬ pd y.uploadDate = t := by
            intro hyt
            exact absurd (hx ▸ hyt ▸ hxy) (lt_irrefl _)
          simp [List.filter_cons, ih, hx, hy]
        · by_cases hy : pd y.uploadDate = t
          · simp [List.filter_cons, ih, hx, hy]
          · simp [List.filter_cons, ih, hx, hy]

lemma filter_sortImages (pd : String → Int) (t : Int) :
    ∀ l, (sortImages pd l).filter (fun e => decide (pd e.uploadDate = t))
      = l.filter (fun e => decide (pd e.uploadDate = t)) := by
  intro l
  induction l with
  | nil => rfl
  | cons x xs ih =>
      show (insertByDate pd x (sortImages pd xs)).filter _ = _
      rw [filter_insertByDate]
      by_cases hx : pd x.uploadDate = t
      · rw [if_pos hx, ih, List.filter_cons, if_pos (by simpa using hx)]
      · rw [if_neg hx, ih, List.filter_cons, if_neg (by simpa using hx)]

/-! ## Helper lemmas: the byCategory aggregation -/

lemma find?_map_keepFst (c i c' : String) (acc : List (String × List String)) :
    (acc.map (fun p => if p.1 == c then (p.1, p.2 ++ [i]) else p)).find?
        (fun p => p.1 == c')
      = (acc.find? (fun p => p.1 == c')).map
          (fun p => if p.1 == c then (p.1, p.2 ++ [i]) else p) := by
  induction acc with
  | nil => rfl
  | cons q rest ih =>
      have hfst : ((if q.1 == c then (q.1, q.2 ++ [i]) else q) : String × List String).1
          = q.1 := by
        split <;> rfl
      cases hq : (q.1 == c') with
      | true =>
          simp only [List.map_cons, List.find?_cons, hfst, hq, Option.map_some']
      | false =>
          simp only [List.map_cons, List.find?_cons, hfst, hq]
          exact ih

lemma bucketOf_insertCat (acc : List (String × List String)) (c i c' : String) :
    bucketOf (insertCat acc c i) c'
      = bucketOf acc c' ++ (if c' = c then [i] else []) := by
  unfold insertCat
  by_cases hany : acc.any (fun p => p.1 == c)
  · rw [if_pos hany]
    unfold bucketOf
    rw [find?_map_keepFst]
    cases hfind : acc.find? (fun p => p.1 == c') with
    | none =>
        rw [Option.map_none']
        by_cases hcc : c' = c
        · exfalso
          rcases List.any_eq_true.mp hany with ⟨p, hp, hpc⟩
          exact (List.find?_eq_none.mp hfind p hp) (by rw [hcc]; exact hpc)
        · rw [if_neg hcc, List.append_nil]
    | some p =>
        rw [Option.map_some']
        have hpc' : p.1 = c' := by
          have := List.find?_some hfind
          exact beq_iff_eq.mp this
        by_cases hcc : c' = c
        · rw [if_pos hcc]
          have : (p.1 == c) = true := beq_iff_eq.mpr (hpc'.trans hcc)
          rw [if_pos this]
        · have : ¬ ((p.1 == c) = true) := by
            rw [beq_iff_eq, hpc']
            exact hcc
          rw [if_neg this, if_neg hcc, List.append_nil]
  · rw [if_neg hany]
    unfold bucketOf
    rw [List.find?_append]
    have hnone : acc.find? (fun p => p.1 == c) = none := by
      rw [List.find?_eq_none]
      intro p hp hpc
      exact hany (List.any_eq_true.mpr ⟨p, hp, hpc⟩)
    by_cases hcc : c' = c
    · subst hcc
      have hcT : ((((c', [i]) : String × List String)).1 == c') = true := beq_iff_eq.mpr rfl
      simp [hnone, List.find?_cons, hcT]
    · have hcF : ((((c, [i]) : String × List String)).1 == c') = false := by
        rw [beq_eq_false_iff_ne]
        exact fun h => hcc h.symm
      cases hfind : acc.find? (fun p => p.1 == c') with
      | none =>
          simp only [hfind, Option.none_or, List.find?_cons, hcF, List.find?_nil,
            if_neg hcc, List.append_nil]
      | some p =>
          simp only [hfind, Option.or_some, if_neg hcc, List.append_nil]

lemma bucketOf_foldl (c : String) (l : List Entry) :
    ∀ acc, bucketOf (l.foldl (fun a img => insertCat a img.category img.id) acc) c
      = bucketOf acc c ++ (l.filter (fun e => e.category == c)).map (fun e => e.id) := by
  induction l with
  | nil => intro acc; simp
  | cons x xs ih =>
      intro acc
      rw [List.foldl_cons, ih, bucketOf_insertCat, List.filter_cons]
      by_cases hc : x.category = c
      · have h1 : ((x.category == c) = true) := beq_iff_eq.mpr hc
        have h2 : c = x.category := hc.symm
        rw [if_pos h1, if_pos h2, List.map_cons, List.append_assoc,
          List.singleton_append]
      · have h1 : ¬ ((x.category == c) = true) := fun h => hc (beq_iff_eq.mp h)
        have h2 : ¬ (c = x.category) := fun h => hc h.symm
        rw [if_neg h1, if_neg h2, List.append_nil]

lemma bucketOf_byCategoryOf (imgs : List Entry) (c : String) :
    bucketOf (byCategoryOf imgs) c
      = (imgs.filter (fun e => e.category == c)).map (fun e => e.id) := by
  rw [byCategoryOf, bucketOf_foldl]
  rfl

lemma keys_insertCat (acc : List (String × List String)) (c i : String) :
    (insertCat acc c i).map Prod.fst
      = if acc.any (fun p => p.1 == c) then acc.map Prod.fst
        else acc.map Prod.fst ++ [c] := by
  unfold insertCat
  by_cases hany : acc.any (fun p => p.1 == c)
  · rw [if_pos hany, if_pos hany, List.map_map]
    refine List.map_congr_left ?_
    intro p _
    show ((if p.1 == c then (p.1, p.2 ++ [i]) else p) : String × List String).1 = p.1
    split <;> rfl
  · rw [if_neg hany, if_neg hany, List.map_append]
    rfl

lemma keys_nodup_foldl (l : List Entry) :
    ∀ acc : List (String × List String), (acc.map Prod.fst).Nodup →
      ((l.foldl (fun a img => insertCat a img.category img.id) acc).map Prod.fst).Nodup := by
  induction l with
  | nil => intro acc h; exact h
  | cons x xs ih =>
      intro acc h
      rw [List.foldl_cons]
      refine ih _ ?_
      rw [keys_insertCat]
      by_cases hany : acc.any (fun p => p.1 == x.category)
      · rw [if_pos hany]; exact h
      · rw [if_neg hany]
        rw [List.nodup_append]
        refine ⟨h, List.nodup_singleton _, ?_⟩
        intro a ha hb
        rcases List.mem_singleton.mp hb with rfl
        rcases List.mem_map.mp ha with ⟨p, hp, hpa⟩
        exact hany (List.any_eq_true.mpr ⟨p, hp, beq_iff_eq.mpr hpa⟩)

lemma keys_nodup_byCategoryOf (imgs : List Entry) :
    ((byCategoryOf imgs).map Prod.fst).Nodup :=
  keys_nodup_foldl imgs [] List.nodup_nil

lemma find?_eq_of_mem_nodupKeys :
    ∀ (m : List (String × List String)), (m.map Prod.fst).Nodup →
      ∀ c ids, (c, ids) ∈ m → m.find? (fun p => p.1 == c) = some (c, ids) := by
  intro m
  induction m with
  | nil => intro _ c ids h; cases h
  | cons q rest ih =>
      intro hnd c ids hmem
      rw [List.map_cons, List.nodup_cons] at hnd
      rcases List.mem_cons.mp hmem with rfl | hmem
      · have hcT : ((((c, ids) : String × List String)).1 == c) = true := beq_iff_eq.mpr rfl
        simp only [List.find?_cons, hcT]
      · have hq : (q.1 == c) = false := by
          rw [beq_eq_false_iff_ne]
          intro hqc
          exact hnd.1 (hqc ▸ List.mem_map.mpr ⟨(c, ids), hmem, rfl⟩)
        simp only [List.find?_cons, hq]
        exact ih hnd.2 c ids hmem

/-! ## Helper lemmas: splitting and the category of a relative path -/

lemma splitAux_no_sep (p : Char → Bool) (seg : List Char) :
    ∀ (cur l : List Char), (∀ c ∈ seg, p c = false) →
      splitAux p cur (seg ++ l) = splitAux p (seg.reverse ++ cur) l := by
  induction seg with
  | nil => intro cur l _; simp
  | cons c cs ih =>
      intro cur l h
      have hc : p c = false := h c (List.mem_cons_self c cs)
      rw [List.cons_append]
      show (if p c then _ else splitAux p (c :: cur) (cs ++ l)) = _
      rw [if_neg (by rw [hc]; exact Bool.false_ne_true),
        ih (c :: cur) l (fun d hd => h d (List.mem_cons_of_mem c hd)),
        List.reverse_cons, List.append_assoc, List.singleton_append]

lemma splitChars_cons_sep (p : Char → Bool) (seg : List Char) (sep : Char)
    (rest : List Char) (hseg : ∀ c ∈ seg, p c = false) (hsep : p sep = true) :
    splitChars p (seg ++ sep :: rest) = seg :: splitChars p rest := by
  rw [splitChars, splitAux_no_sep p seg [] (sep :: rest) hseg]
  simp only [splitAux, hsep, if_true, List.append_nil, List.reverse_reverse]
  rfl

lemma splitChars_no_sep (p : Char → Bool) (seg : List Char)
    (hseg : ∀ c ∈ seg, p c = false) :
    splitChars p seg = [seg] := by
  rw [splitChars]
  have := splitAux_no_sep p seg [] [] hseg
  rw [List.append_nil] at this
  rw [this]
  simp only [splitAux, List.append_nil, List.reverse_reverse]

lemma categoryOfRel_subdir (seg rest : List Char) (hne : seg ≠ [])
    (hseg : ∀ c ∈ seg, c ≠ '/' ∧ c ≠ '\\') :
    categoryOfRel (String.mk (seg ++ '/' :: rest)) = String.mk seg := by
  unfold categoryOfRel
  have hs : splitChars (fun c => c == '/' || c == '\\') ((String.mk (seg ++ '/' :: rest)).data)
      = seg :: splitChars (fun c => c == '/' || c == '\\') rest := by
    refine splitChars_cons_sep _ seg '/' rest ?_ rfl
    intro c hc
    rcases hseg c hc with ⟨h1, h2⟩
    simp [h1, h2]
  rw [hs]
  show (if seg.isEmpty then "uncategorized" else String.mk seg) = String.mk seg
  cases seg with
  | nil => exact absurd rfl hne
  | cons a as => rfl

lemma categoryOfRel_rootfile (seg : List Char) (hne : seg ≠ [])
    (hseg : ∀ c ∈ seg, c ≠ '/' ∧ c ≠ '\\') :
    categoryOfRel (String.mk seg) = String.mk seg := by
  unfold categoryOfRel
  have hs : splitChars (fun c => c == '/' || c == '\\') ((String.mk seg).data) = [seg] := by
    refine splitChars_no_sep _ seg ?_
    intro c hc
    rcases hseg c hc with ⟨h1, h2⟩
    simp [h1, h2]
  rw [hs]
  show (if seg.isEmpty then "uncategorized" else String.mk seg) = String.mk seg
  cases seg with
  | nil => exact absurd rfl hne
  | cons a as => rfl

/-! ## Helper lemmas: clock-independence and upload-date defaulting -/

lemma jsOr_date_clock_free (m : Metadata) (h : hasUploadDate m = true) (t1 t2 : String) :
    jsOr m.uploadDate (jsOr m.uploadedAt t1) = jsOr m.uploadDate (jsOr m.uploadedAt t2) := by
  unfold hasUploadDate truthyStr at h
  cases hud : m.uploadDate with
  | some v =>
      by_cases hv : v = ""
      · subst hv
        rw [hud] at h
        simp only [decide_eq_true_eq] at h
        cases hua : m.uploadedAt with
        | some w =>
            rw [hua] at h
            have hw : ¬ w = "" := by
              rcases Bool.or_eq_true_iff.mp h with h1 | h1
              · exact absurd (of_decide_eq_true h1) (fun hh => hh rfl)
              · exact of_decide_eq_true h1
            simp [jsOr, hw]
        | none =>
            rw [hua] at h
            rcases Bool.or_eq_true_iff.mp h with h1 | h1
            · exact absurd (of_decide_eq_true h1) (fun hh => hh rfl)
            · exact absurd h1 Bool.false_ne_true
      · simp [jsOr, hv]
  | none =>
      rw [hud] at h
      cases hua : m.uploadedAt with
      | some w =>
          rw [hua] at h
          have hw : ¬ w = "" := by
            rcases Bool.or_eq_true_iff.mp h with h1 | h1
            · exact absurd h1 Bool.false_ne_true
            · exact of_decide_eq_true h1
          simp [jsOr, hw]
      | none =>
          rw [hua] at h
          rcases Bool.or_eq_true_iff.mp h with h1 | h1
          · exact absurd h1 Bool.false_ne_true
          · exact absurd h1 Bool.false_ne_true

lemma entryOf_clock_free (s : Sidecar) (h : hasUploadDate s.meta = true) (t1 t2 : String) :
    entryOf t1 s = entryOf t2 s := by
  unfold entryOf
  rw [jsOr_date_clock_free s.meta h t1 t2]

lemma jsOr_ne_empty (v : Option String) (d : String) (hd : d ≠ "") : jsOr v d ≠ "" := by
  cases v with
  | none => exact hd
  | some s =>
      by_cases hs : s = ""
      · show (if s = "" then d else s) ≠ ""
        rw [if_pos hs]
        exact hd
      · show (if s = "" then d else s) ≠ ""
        rw [if_neg hs]
        exact hs

lemma entryOf_uploadDate_default (now : String) (s : Sidecar)
    (h : hasUploadDate s.meta = false) : (entryOf now s).uploadDate = now := by
  show jsOr s.meta.uploadDate (jsOr s.meta.uploadedAt now) = now
  unfold hasUploadDate at h
  rcases Bool.or_eq_false_iff.mp h with ⟨h1, h2⟩
  unfold truthyStr at h1 h2
  cases hud : s.meta.uploadDate with
  | some v =>
      rw [hud] at h1
      have hv : v = "" := by
        by_contra hv
        exact absurd h1 (by simp [hv])
      cases hua : s.meta.uploadedAt with
      | some w =>
          rw [hua] at h2
          have hw : w = "" := by
            by_contra hw
            exact absurd h2 (by simp [hw])
          simp [jsOr, hv, hw]
      | none => simp [jsOr, hv]
  | none =>
      cases hua : s.meta.uploadedAt with
      | some w =>
          rw [hua] at h2
          have hw : w = "" := by
            by_contra hw
            exact absurd h2 (by simp [hw])
          simp [jsOr, hw]
      | none => simp [jsOr]

/-! ## Helper lemmas: shape of the generated user-content index -/

lemma generateIndex_images (pd : String → Int) (now : String) (scs : List Sidecar)
    (hne : scs ≠ []) :
    (generateIndex pd now scs).images
      = sortImages pd ((scs.filter (fun s => s.parseOk)).map (entryOf now)) := by
  cases scs with
  | nil => exact absurd rfl hne
  | cons x xs => rfl

lemma generateIndex_byCategory (pd : String → Int) (now : String) (scs : List Sidecar)
    (hne : scs ≠ []) :
    (generateIndex pd now scs).byCategory = byCategoryOf (generateIndex pd now scs).images := by
  cases scs with
  | nil => exact absurd rfl hne
  | cons x xs => rfl

lemma generateIndex_images_map_id (pd : String → Int) (now : String) (scs : List Sidecar)
    (hne : scs ≠ []) :
    List.Perm ((generateIndex pd now scs).images.map (fun e => e.id))
      ((scs.filter (fun s => s.parseOk)).map (fun s => s.id)) := by
  rw [generateIndex_images pd now scs hne]
  refine List.Perm.trans (List.Perm.map _ (perm_sortImages pd _)) ?_
  rw [List.map_map]
  exact List.Perm.refl _

/-! ## Sample inputs used by witnesses and counterexamples -/

/-- Metadata with every optional field absent. -/
def emptyMeta : Metadata := ⟨none, none, none, none, none, none, none, none, none, none⟩

/-- Sidecar `abc123-metadata.json` with an upload date but no image file of
any extension next to it (the missing-primary-file scenario). -/
def scNoFile : Sidecar :=
  ⟨"abc123", "user-content/images", { emptyMeta with uploadDate := some "2025-01-01" },
    false, false, false, false, false, none, 0, true⟩

/-- Sidecar lacking both `uploadDate` and `uploadedAt`. -/
def scNoDate : Sidecar :=
  ⟨"nodate", "user-content/images", emptyMeta,
    false, false, false, false, false, none, 0, true⟩

/-- Sidecar with basename `x` in subdirectory `a`. -/
def scDupA : Sidecar :=
  ⟨"x", "user-content/images/a", { emptyMeta with uploadDate := some "2025-01-01" },
    false, false, false, false, false, none, 0, true⟩

/-- Sidecar with the same basename `x` in subdirectory `b` (its metadata
carries a `name`, so its entry differs from `scDupA`'s). -/
def scDupB : Sidecar :=
  ⟨"x", "user-content/images/b",
    { emptyMeta with uploadDate := some "2025-01-01", name := some "B" },
    false, false, false, false, false, none, 0, true⟩

/-- Game-asset file inside the `icons` subdirectory. -/
def gfIcons : GFile := ⟨"icons/fire.png", 1234, "2025-01-01T00:00:00.000Z", some (64, 64), true⟩

/-- Game-asset file directly under the scan root. -/
def gfRoot : GFile := ⟨"fire.png", 1234, "2025-01-01T00:00:00.000Z", some (64, 64), true⟩

/-! ## The claims -/

/-- C1 counterexample: two sidecars with the same basename `x` in different
directories (and the same defaulted category `other`) put the id `x` into
the `other` bucket twice, so the first entry's id does not occur exactly
once in its category's bucket, and the id `x` in the bucket corresponds to
two distinct entries of `images`. -/
theorem C1_counterexample :
    ((bucketOf (generateIndex (fun _ => 0) "T" [scDupA, scDupB]).byCategory "other").count "x"
        = 2)
    ∧ (∃ e ∈ (generateIndex (fun _ => 0) "T" [scDupA, scDupB]).images,
        e.category = "other" ∧ e.id = "x")
    ∧ (∃ e1 ∈ (generateIndex (fun _ => 0) "T" [scDupA, scDupB]).images,
        ∃ e2 ∈ (generateIndex (fun _ => 0) "T" [scDupA, scDupB]).images,
          e1.id = "x" ∧ e2.id = "x" ∧ e1 ≠ e2) := by decide

/-- C1 (amended): for every run — duplicate basenames included — every id
appearing in any byCategory bucket corresponds to at least one entry of
`images` with that id and category, and every entry's category appears as
a key of `byCategory`; the 'exactly once / exactly one entry' part holds
provided the successfully parsed sidecar basenames (the entry ids) are
pairwise distinct, which the code never enforces. -/
theorem C1_byCategory_consistent (pd : String → Int) (now : String) (scs : List Sidecar) :
    (∀ c ids, (c, ids) ∈ (generateIndex pd now scs).byCategory → ∀ i ∈ ids,
        ∃ e ∈ (generateIndex pd now scs).images, e.id = i ∧ e.category = c)
    ∧ (∀ e ∈ (generateIndex pd now scs).images,
        ∃ ids, (e.category, ids) ∈ (generateIndex pd now scs).byCategory)
    ∧ (((scs.filter (fun s => s.parseOk)).map (fun s => s.id)).Nodup →
        (∀ e ∈ (generateIndex pd now scs).images,
            ((bucketOf (generateIndex pd now scs).byCategory e.category).count e.id) = 1)
        ∧ (∀ c ids, (c, ids) ∈ (generateIndex pd now scs).byCategory → ∀ i ∈ ids,
            ∃ e ∈ (generateIndex pd now scs).images, e.id = i ∧ e.category = c
              ∧ ∀ e2 ∈ (generateIndex pd now scs).images, e2.id = i → e2 = e)) := by
  by_cases hne : scs = []
  · subst hne
    have h0 : (generateIndex pd now ([] : List Sidecar)).images = [] := rfl
    have h1 : (generateIndex pd now ([] : List Sidecar)).byCategory = [] := rfl
    refine ⟨?_, ?_, ?_⟩
    · intro c ids hm
      rw [h1] at hm
      cases hm
    · intro e he
      rw [h0] at he
      cases he
    · intro _
      refine ⟨?_, ?_⟩
      · intro e he
        rw [h0] at he
        cases he
      · intro c ids hm
        rw [h1] at hm
        cases hm
  · have hbc := generateIndex_byCategory pd now scs hne
    have hpair : ∀ c ids, (c, ids) ∈ (generateIndex pd now scs).byCategory →
        ids = (((generateIndex pd now scs).images.filter
          (fun e => e.category == c)).map (fun e => e.id)) := by
      intro c ids hmem
      rw [hbc] at hmem
      have hfind := find?_eq_of_mem_nodupKeys _ (keys_nodup_byCategoryOf _) c ids hmem
      have hids : ids = bucketOf (byCategoryOf (generateIndex pd now scs).images) c := by
        unfold bucketOf
        rw [hfind]
      rw [hids, bucketOf_byCategoryOf]
    refine ⟨?_, ?_, ?_⟩
    · intro c ids hmem i hi
      rw [hpair c ids hmem] at hi
      rcases List.mem_map.mp hi with ⟨e, hef, hei⟩
      exact ⟨e, (List.mem_filter.mp hef).1, hei, beq_iff_eq.mp (List.mem_filter.mp hef).2⟩
    · intro e he
      rw [hbc]
      have hmemb : e.id ∈ bucketOf (byCategoryOf (generateIndex pd now scs).images)
          e.category := by
        rw [bucketOf_byCategoryOf]
        exact List.mem_map_of_mem _ (List.mem_filter.mpr ⟨he, beq_iff_eq.mpr rfl⟩)
      unfold bucketOf at hmemb
      cases hfind : (byCategoryOf (generateIndex pd now scs).images).find?
          (fun p => p.1 == e.category) with
      | none =>
          rw [hfind] at hmemb
          cases hmemb
      | some p =>
          have hps := List.find?_some hfind
          have hp1 : p.1 = e.category := beq_iff_eq.mp hps
          refine ⟨p.2, ?_⟩
          have hpmem := List.mem_of_find?_eq_some hfind
          have hpe : ((e.category, p.2) : String × List String) = p := by
            rw [← hp1]
          rw [hpe]
          exact hpmem
    · intro hnd
      have hidnd : ((generateIndex pd now scs).images.map (fun e => e.id)).Nodup :=
        ((generateIndex_images_map_id pd now scs hne).nodup_iff).mpr hnd
      refine ⟨?_, ?_⟩
      · intro e he
        rw [hbc, bucketOf_byCategoryOf]
        have hsub : (((generateIndex pd now scs).images.filter
              (fun x => x.category == e.category)).map (fun x => x.id)).Sublist
            ((generateIndex pd now scs).images.map (fun x => x.id)) :=
          (List.filter_sublist _).map _
        have hnd2 := List.Nodup.sublist hsub hidnd
        refine List.count_eq_one_of_mem hnd2 ?_
        exact List.mem_map_of_mem _ (List.mem_filter.mpr ⟨he, beq_iff_eq.mpr rfl⟩)
      · intro c ids hmem i hi
        rw [hpair c ids hmem] at hi
        rcases List.mem_map.mp hi with ⟨e, hef, hei⟩
        have hein : e ∈ (generateIndex pd now scs).images := (List.mem_filter.mp hef).1
        refine ⟨e, hein, hei, beq_iff_eq.mp (List.mem_filter.mp hef).2, ?_⟩
        intro e2 he2 hid2
        exact List.inj_on_of_nodup_map hidnd he2 hein (hid2.trans hei.symm)

/-- C1 witness: the amended theorem's conditional part applied to two
concrete sidecars whose basenames differ, its distinct-ids hypothesis
discharged there. -/
theorem C1_witness :
    ((([scNoFile, scNoDate].filter (fun s => s.parseOk)).map (fun s => s.id)).Nodup)
    ∧ (∀ e ∈ (generateIndex (fun _ => 0) "T" [scNoFile, scNoDate]).images,
        ((bucketOf (generateIndex (fun _ => 0) "T" [scNoFile, scNoDate]).byCategory
            e.category).count e.id) = 1) :=
  ⟨by decide,
    ((C1_byCategory_consistent (fun _ => 0) "T" [scNoFile, scNoDate]).2.2 (by decide)).1⟩

/-- C2: the user-content images list is sorted by parsed upload timestamp
descending — every adjacent pair satisfies it — and the sort is stable:
for every timestamp, the entries of the output carrying it are exactly
the entries of the pre-sort (traversal-order) list carrying it, in the
same order. -/
theorem C2_sorted_stable (pd : String → Int) (now : String) (scs : List Sidecar) :
    ((generateIndex pd now scs).images).Chain'
        (fun a b => pd b.uploadDate ≤ pd a.uploadDate)
    ∧ ∀ t : Int,
        ((generateIndex pd now scs).images).filter (fun e => decide (pd e.uploadDate = t))
          = ((scs.filter (fun s => s.parseOk)).map (entryOf now)).filter
              (fun e => decide (pd e.uploadDate = t)) := by
  by_cases hne : scs = []
  · subst hne
    have h0 : (generateIndex pd now ([] : List Sidecar)).images = [] := rfl
    constructor
    · rw [h0]
      exact List.chain'_nil
    · intro t
      rfl
  · rw [generateIndex_images pd now scs hne]
    constructor
    · exact (pairwise_sortImages pd _).chain'
    · intro t
      exact filter_sortImages pd t _

/-- C3 counterexample: at filename `Fire.png`, category `icons`, path
`/icons/Fire.png`, the generated keywords contain the non-lowercase
`Fire` (the filename without extension is added verbatim), and the
claim's union contains `fire.png` (a token of the lowercased full
filename) which the code never produces — both halves of the claim fail. -/
theorem C3_counterexample :
    ("Fire" ∈ generateKeywords "Fire.png" "icons" "/icons/Fire.png"
      ∧ toLowerStr "Fire" ≠ "Fire")
    ∧ ("fire.png" ∈ keywordsClaimed "Fire.png" "icons" "/icons/Fire.png"
      ∧ "fire.png" ∉ generateKeywords "Fire.png" "icons" "/icons/Fire.png") := by decide

/-- C3 (amended): the keyword list equals, as a set, the union of the
filename without extension, the category, the surviving path segments
(everything except empty segments, `images`, `content` and the filename)
— all three added verbatim, not lowercased — together with the maximal
numeric substrings and the underscore/dash tokens longer than one
character of the lowercased filename WITHOUT its extension. -/
theorem C3_keywords_membership (filename category imagePath s : String) :
    s ∈ generateKeywords filename category imagePath
      ↔ (s = stripExt filename ∨ s = category
          ∨ s ∈ pathSegs filename imagePath
          ∨ s ∈ digitRuns (toLowerStr (stripExt filename))
          ∨ s ∈ longTokens (toLowerStr (stripExt filename))) := by
  unfold generateKeywords
  rw [mem_dedup]
  simp only [List.mem_append, List.mem_cons, List.mem_singleton]
  tauto

/-- C4 counterexample: a file directly under the scan root gets its own
filename as category — not the claimed `uncategorized`. -/
theorem C4_counterexample :
    (mkGameEntry gfRoot).category = "fire.png" ∧ "fire.png" ≠ "uncategorized" := by decide

/-- C4 (amended): the category is the first slash-or-backslash-delimited
segment of the root-relative path: the first directory name when the file
is in a subdirectory, and the filename itself when the file sits directly
under the scan root (`uncategorized` would require an empty first
segment, which a file's relative path never produces). -/
theorem C4_category_first_segment (f : GFile) (seg rest : List Char)
    (hne : seg ≠ []) (hseg : ∀ c ∈ seg, c ≠ '/' ∧ c ≠ '\\') :
    (f.relPath = String.mk (seg ++ '/' :: rest) →
      (mkGameEntry f).category = String.mk seg)
    ∧ (f.relPath = String.mk seg → (mkGameEntry f).category = String.mk seg) := by
  constructor
  · intro hrel
    show categoryOfRel f.relPath = String.mk seg
    rw [hrel]
    exact categoryOfRel_subdir seg rest hne hseg
  · intro hrel
    show categoryOfRel f.relPath = String.mk seg
    rw [hrel]
    exact categoryOfRel_rootfile seg hne hseg

/-- C4 witness: the amended theorem applied to the concrete file
`icons/fire.png`, whose category is `icons`. -/
theorem C4_witness :
    ("icons".data ≠ [] ∧ (∀ c ∈ "icons".data, c ≠ '/' ∧ c ≠ '\\')
      ∧ gfIcons.relPath = String.mk ("icons".data ++ '/' :: "fire.png".data))
    ∧ (mkGameEntry gfIcons).category = String.mk "icons".data :=
  ⟨⟨by decide, by decide, by decide⟩,
    (C4_category_first_segment gfIcons "icons".data "fire.png".data
      (by decide) (by decide)).1 (by decide)⟩

/-- C5 counterexample: a sidecar lacking both date fields takes the run's
clock as `uploadDate`, so two runs over the unchanged input at different
times produce different `images` content. -/
theorem C5_counterexample :
    (generateIndex (fun _ => 0) "2025-01-01T00:00:00.000Z" [scNoDate]).images
      ≠ (generateIndex (fun _ => 0) "2025-01-02T00:00:00.000Z" [scNoDate]).images := by
  decide

/-- C5 (amended): provided every successfully parsed sidecar carries a
truthy `uploadDate` or `uploadedAt` (and the scan yields the same file
order), two user-content runs at different clock readings produce equal
`images` content; the game-asset builder's `images` content never depends
on its clock. -/
theorem C5_idempotent (pd : String → Int) (scs : List Sidecar) (t1 t2 : String)
    (h : ∀ s ∈ scs, s.parseOk = true → hasUploadDate s.meta = true) :
    (generateIndex pd t1 scs).images = (generateIndex pd t2 scs).images
    ∧ ∀ (u1 u2 : String) (files : List GFile),
        (gameIndexOf u1 files).images = (gameIndexOf u2 files).images := by
  constructor
  · by_cases hne : scs = []
    · subst hne
      rfl
    · rw [generateIndex_images pd t1 scs hne, generateIndex_images pd t2 scs hne]
      have hl : (scs.filter (fun s => s.parseOk)).map (entryOf t1)
          = (scs.filter (fun s => s.parseOk)).map (entryOf t2) := by
        refine List.map_congr_left ?_
        intro s hs
        have hm := List.mem_filter.mp hs
        exact entryOf_clock_free s (h s hm.1 hm.2) t1 t2
      rw [hl]
  · intro u1 u2 files
    rfl

/-- C5 witness: the amended theorem applied to a concrete dated sidecar
and two distinct clock readings. -/
theorem C5_witness :
    (∀ s ∈ [scNoFile], s.parseOk = true → hasUploadDate s.meta = true)
    ∧ (generateIndex (fun _ => 0) "2025-01-01T00:00:00.000Z" [scNoFile]).images
        = (generateIndex (fun _ => 0) "2025-01-02T00:00:00.000Z" [scNoFile]).images :=
  ⟨by decide,
    (C5_idempotent (fun _ => 0) [scNoFile] "2025-01-01T00:00:00.000Z"
      "2025-01-02T00:00:00.000Z" (by decide)).1⟩

/-- C6: both builders set `totalImages` to the length of the `images`
list they write — directly for the user-content document, and for every
game-asset run that writes a document at all. -/
theorem C6_totalImages (pd : String → Int) (now : String) (scs : List Sidecar) :
    (generateIndex pd now scs).totalImages = (generateIndex pd now scs).images.length
    ∧ ∀ (t : String) (files : List GFile) (idx : GameIndex),
        buildImageIndexes t files = GameResult.written idx →
          idx.totalImages = idx.images.length := by
  constructor
  · cases scs with
    | nil => rfl
    | cons x xs => rfl
  · intro t files idx h
    unfold buildImageIndexes at h
    by_cases hf : files.isEmpty = true
    · rw [if_pos hf] at h
      cases h
    · rw [if_neg hf] at h
      injection h with h2
      rw [← h2]
      rfl

/-- C6 witness: a concrete run that writes a document has matching count
and length. -/
theorem C6_witness :
    (buildImageIndexes "T" [gfIcons] = GameResult.written (gameIndexOf "T" [gfIcons]))
    ∧ (gameIndexOf "T" [gfIcons]).totalImages = (gameIndexOf "T" [gfIcons]).images.length :=
  ⟨rfl, (C6_totalImages (fun _ => 0) "T" [scNoFile]).2 "T" [gfIcons]
    (gameIndexOf "T" [gfIcons]) rfl⟩

/-- C7: a game-asset run over an existing scan root containing zero image
files exits 0 without writing an index, while the user-content builder
with zero sidecars writes the well-formed empty document — version `1.0`,
`totalImages` 0, the generation date, empty `images` and empty
`byCategory`. -/
theorem C7_zero_images (pd : String → Int) (now : String) :
    buildImageIndexes now [] = GameResult.exitOk
    ∧ generateIndex pd now [] = ⟨"1.0", 0, now, [], []⟩ :=
  ⟨rfl, rfl⟩

/-- C8: a sidecar that parsed, next to which no image file of any allowed
extension (nor a webp) exists, and whose metadata lacks usable
dimensions, still yields an entry: its id is kept, `filesize` is 0,
`path` is null and the failed decode leaves `dimensions` zeroed. -/
theorem C8_missing_primary (pd : String → Int) (now : String) (scs : List Sidecar)
    (s : Sidecar) (hs : s ∈ scs) (hok : s.parseOk = true)
    (hjpg : s.hasJpg = false) (hjpeg : s.hasJpeg = false) (hpng : s.hasPng = false)
    (hgif : s.hasGif = false) (hwebp : s.hasWebp = false)
    (hdim : needsExtract s.meta = true) :
    ∃ e ∈ (generateIndex pd now scs).images,
      e.id = s.id ∧ e.filesize = 0 ∧ e.path = none ∧ e.dimensions = (0, 0) := by
  have hne : scs ≠ [] := by
    intro h
    subst h
    cases hs
  have hexts : s.existingExts = [] := by
    unfold Sidecar.existingExts
    rw [hgif, hjpeg, hjpg, hpng, hwebp]
    rfl
  have hoe : s.originalExt = none := by
    unfold Sidecar.originalExt
    rw [hexts]
    rfl
  have hed : extractedDims s = (0, 0) := by
    unfold extractedDims
    rw [hoe, hwebp]
    rfl
  have hdims : dimsOf s = (0, 0) := by
    cases hd : s.meta.dimensions with
    | none => simp only [dimsOf, hd, hed]
    | some d =>
        have hdim2 : (d.1 == 0 || d.2 == 0) = true := by
          have h3 := hdim
          unfold needsExtract at h3
          rw [hd] at h3
          simpa using h3
        have hor : d.1 = 0 ∨ d.2 = 0 := by
          rcases Bool.or_eq_true_iff.mp hdim2 with h1 | h1
          · exact Or.inl (eq_of_beq h1)
          · exact Or.inr (eq_of_beq h1)
        simp only [dimsOf, hd, if_pos hor, hed]
  refine ⟨entryOf now s, ?_, rfl, ?_, ?_, ?_⟩
  · rw [generateIndex_images pd now scs hne, mem_sortImages]
    exact List.mem_map_of_mem _ (List.mem_filter.mpr ⟨hs, hok⟩)
  · show (if s.originalExt.isSome then s.fileSize else 0) = 0
    rw [hoe]
    rfl
  · show s.originalExt.map _ = none
    rw [hoe]
    rfl
  · exact hdims

/-- C8 witness: the theorem applied to the concrete sidecar `abc123`
with no image files next to it. -/
theorem C8_witness :
    (scNoFile ∈ [scNoFile] ∧ scNoFile.parseOk = true ∧ scNoFile.hasJpg = false
      ∧ scNoFile.hasJpeg = false ∧ scNoFile.hasPng = false ∧ scNoFile.hasGif = false
      ∧ scNoFile.hasWebp = false ∧ needsExtract scNoFile.meta = true)
    ∧ ∃ e ∈ (generateIndex (fun _ => 0) "T" [scNoFile]).images,
        e.id = scNoFile.id ∧ e.filesize = 0 ∧ e.path = none ∧ e.dimensions = (0, 0) :=
  ⟨by decide,
    C8_missing_primary (fun _ => 0) "T" [scNoFile] scNoFile (by decide) (by decide)
      (by decide) (by decide) (by decide) (by decide) (by decide) (by decide)⟩

/-- C9 (code bug): the game-asset builder writes only `image-index.json`;
`image-search-index.json`, documented in the repository's README as a
second output, is never produced — shown at a concrete nonempty scan. -/
theorem C9_only_one_output :
    writtenFiles (buildImageIndexes "2025-01-01T00:00:00.000Z" [gfIcons])
        = ["image-index.json"]
    ∧ "image-search-index.json"
        ∉ writtenFiles (buildImageIndexes "2025-01-01T00:00:00.000Z" [gfIcons]) := by
  decide

/-- C10: an entry built from a sidecar lacking both `uploadDate` and
`uploadedAt` takes the run's clock reading as its `uploadDate`, and (the
clock reading being a nonempty ISO string) every entry of the output
carries a nonempty `uploadDate`. -/
theorem C10_uploadDate_defaulted (pd : String → Int) (now : String) (scs : List Sidecar)
    (s : Sidecar) (hs : s ∈ scs) (hok : s.parseOk = true)
    (hnod : hasUploadDate s.meta = false) (hnow : now ≠ "") :
    (∃ e ∈ (generateIndex pd now scs).images, e.id = s.id ∧ e.uploadDate = now)
    ∧ ∀ e ∈ (generateIndex pd now scs).images, e.uploadDate ≠ "" := by
  have hne : scs ≠ [] := by
    intro h
    subst h
    cases hs
  constructor
  · refine ⟨entryOf now s, ?_, rfl, entryOf_uploadDate_default now s hnod⟩
    rw [generateIndex_images pd now scs hne, mem_sortImages]
    exact List.mem_map_of_mem _ (List.mem_filter.mpr ⟨hs, hok⟩)
  · intro e he
    rw [generateIndex_images pd now scs hne, mem_sortImages] at he
    rcases List.mem_map.mp he with ⟨s2, _, rfl⟩
    show jsOr s2.meta.uploadDate (jsOr s2.meta.uploadedAt now) ≠ ""
    exact jsOr_ne_empty _ _ (jsOr_ne_empty _ _ hnow)

/-- C10 witness: the theorem applied to the concrete dateless sidecar. -/
theorem C10_witness :
    (scNoDate ∈ [scNoDate] ∧ scNoDate.parseOk = true
      ∧ hasUploadDate scNoDate.meta = false ∧ "2025-06-01T00:00:00.000Z" ≠ "")
    ∧ ((∃ e ∈ (generateIndex (fun _ => 0) "2025-06-01T00:00:00.000Z" [scNoDate]).images,
          e.id = scNoDate.id ∧ e.uploadDate = "2025-06-01T00:00:00.000Z")
        ∧ ∀ e ∈ (generateIndex (fun _ => 0) "2025-06-01T00:00:00.000Z" [scNoDate]).images,
            e.uploadDate ≠ "") :=
  ⟨by decide,
    C10_uploadDate_defaulted (fun _ => 0) "2025-06-01T00:00:00.000Z" [scNoDate] scNoDate
      (by decide) (by decide) (by decide) (by decide)⟩

end SlayerCDN
